import Mathlib

/-!
Shallow embedding of the silence-trimming core of `src/clean_audio.py`
(class `CleanAudio`): `trim_silence` (lines 208-269) and `dump_rms`
(lines 271-275), together with theorems settling the specification
claims about them.

Modelling choices:
* A waveform (a mono `pydub.AudioSegment`) is modelled as a list of
  integer samples at one sample per millisecond, so that Python's
  millisecond slicing `seg[a:b]` becomes list `drop`/`take`.
* `seg.rms` (pydub, via audioop) is the integer square root of the mean
  of the squared samples.
* The absolute thresholds computed on lines 216-219,
  `db_to_float(self._silence_threshold) * seg.max_possible_amplitude`
  and the corresponding burst value, are real-valued constants of the
  run (they depend only on the fixed dB settings and the sample width);
  they are passed in as rational parameters `silenceThresh` and
  `burstThresh`.
* The expression `math.max(noise_start - leading_ms, 0)` on line 262
  raises `AttributeError` in Python (the `math` module has no `max`);
  that path is modelled as an `Except.error`.
-/

set_option maxRecDepth 100000

/-- A mono waveform at one sample per millisecond. -/
abbrev Seg := List ℤ

instance : DecidableEq (Except String Seg) := fun a b =>
  match a, b with
  | .ok x, .ok y =>
    if h : x = y then isTrue (by rw [h])
    else isFalse (fun hc => h (Except.ok.inj hc))
  | .error x, .error y =>
    if h : x = y then isTrue (by rw [h])
    else isFalse (fun hc => h (Except.error.inj hc))
  | .ok _, .error _ => isFalse (fun hc => Except.noConfusion hc)
  | .error _, .ok _ => isFalse (fun hc => Except.noConfusion hc)

/-- Largest `m ≤ k + fuel` with `m * m ≤ n`, given `k * k ≤ n`;
structurally recursive on the fuel so that concrete values reduce. -/
def isqrtAux (n : ℕ) : ℕ → ℕ → ℕ
  | 0, k => k
  | fuel + 1, k => if (k + 1) * (k + 1) ≤ n then isqrtAux n fuel (k + 1) else k

/-- Integer square root (the `int(sqrt(...))` of `audioop.rms`). -/
def isqrt (n : ℕ) : ℕ := isqrtAux n n 0

/-- Python slice `seg[a:b]` for non-negative bounds: drop `a` samples,
then keep at most `b - a`. -/
def pySlice (s : Seg) (a b : ℕ) : Seg :=
  (s.drop a).take (b - a)

/-- `seg.rms` of pydub: the integer square root of the mean of the
squared samples (`audioop.rms`). -/
def segRms (s : Seg) : ℕ :=
  isqrt ((s.map (fun x => x.natAbs * x.natAbs)).sum / s.length)

/-- The RMS of the 10ms analysis slice whose index is `idx`
(`seg[start_ms:end_ms]` with `start_ms = idx * 10`, lines 233-235). -/
def sliceRms (seg : Seg) (idx : ℕ) : ℕ :=
  segRms (pySlice seg (idx * 10) (idx * 10 + 10))

/-- The update of `noise_peak` by a noisy slice of RMS `r` (lines
237-240: `if noise_peak is None: noise_peak = rms` followed by
`if rms > noise_peak: noise_peak = rms`). -/
def peakUpd (noisePeak : Option ℕ) (r : ℕ) : Option ℕ :=
  match noisePeak with
  | none => some r
  | some p => some (if r > p then r else p)

/-- The trim direction: `CleanAudio.TRIM_START = 0`, `CleanAudio.TRIM_END = 1`. -/
inductive Trim
  | START
  | END
  deriving DecidableEq

/-- Outcome of the `for idx in indices` loop of `trim_silence`
(lines 232-258): either an early `return` with the produced waveform,
or falling through with the final `noise_start` / `noise_peak`. -/
inductive ScanResult
  | ret (out : Seg)
  | fell (noiseStart : Option ℕ) (noisePeak : Option ℕ)
  deriving DecidableEq

/-- The `for idx in indices` loop of `trim_silence` (lines 232-258),
with the loop state `noise_start` / `noise_peak` made explicit.
Per iteration: if the slice RMS exceeds the silence threshold the peak
is updated (lines 237-240); a run is opened if none is open (lines
242-244); if one is open and the absolute distance from its start
exceeds `max_noise = 100` the loop returns the trimmed waveform (lines
245-252).  Otherwise the slice is quiet: if a run is open and the peak
exceeds the burst threshold, the run is reset (lines 253-258). -/
def scanLoop (silenceThresh burstThresh : ℚ) (seg : Seg) (t : Trim) :
    List ℕ → Option ℕ → Option ℕ → ScanResult
  | [], noiseStart, noisePeak => .fell noiseStart noisePeak
  | idx :: rest, noiseStart, noisePeak =>
    let startMs := idx * 10
    let r := segRms (pySlice seg startMs (startMs + 10))
    if (r : ℚ) > silenceThresh then
      -- lines 237-240: `if noise_peak is None` then `if rms > noise_peak`
      let np : Option ℕ := peakUpd noisePeak r
      match noiseStart with
      | none =>
        -- line 244: noise_start = start_ms
        scanLoop silenceThresh burstThresh seg t rest (some startMs) np
      | some ns =>
        if ((startMs : ℤ) - (ns : ℤ)).natAbs > 100 then
          -- lines 246-252: length of noise exceeds the burst span, done
          match t with
          | .START => .ret (pySlice seg ns seg.length)
          | .END =>
            .ret (seg.take (if ns + 10 + 200 > seg.length then seg.length
                            else ns + 10 + 200))
        else
          scanLoop silenceThresh burstThresh seg t rest (some ns) np
    else
      -- lines 253-258: back to silence
      match noiseStart, noisePeak with
      | some _, some p =>
        if (p : ℚ) > burstThresh then
          scanLoop silenceThresh burstThresh seg t rest none noisePeak
        else
          scanLoop silenceThresh burstThresh seg t rest noiseStart noisePeak
      | _, _ => scanLoop silenceThresh burstThresh seg t rest noiseStart noisePeak

/-- The decision the scan loop reaches, separated from the waveform it
builds: `gap ns` when the loop returns early through the
`abs(start_ms - noise_start) > max_noise` test with `noise_start = ns`,
`fell` when the loop runs out of indices. -/
inductive Decision
  | gap (ns : ℕ)
  | fell (noiseStart : Option ℕ) (noisePeak : Option ℕ)
  deriving DecidableEq

/-- The same loop as `scanLoop`, recording only the decision reached.
`scanLoop_eq_decideLoop` proves the two agree. -/
def decideLoop (silenceThresh burstThresh : ℚ) (seg : Seg) :
    List ℕ → Option ℕ → Option ℕ → Decision
  | [], noiseStart, noisePeak => .fell noiseStart noisePeak
  | idx :: rest, noiseStart, noisePeak =>
    let startMs := idx * 10
    let r := segRms (pySlice seg startMs (startMs + 10))
    if (r : ℚ) > silenceThresh then
      let np : Option ℕ := peakUpd noisePeak r
      match noiseStart with
      | none => decideLoop silenceThresh burstThresh seg rest (some startMs) np
      | some ns =>
        if ((startMs : ℤ) - (ns : ℤ)).natAbs > 100 then .gap ns
        else decideLoop silenceThresh burstThresh seg rest (some ns) np
    else
      match noiseStart, noisePeak with
      | some _, some p =>
        if (p : ℚ) > burstThresh then
          decideLoop silenceThresh burstThresh seg rest none noisePeak
        else
          decideLoop silenceThresh burstThresh seg rest noiseStart noisePeak
      | _, _ => decideLoop silenceThresh burstThresh seg rest noiseStart noisePeak

/-- The waveform an early loop return builds from a gap-confirmed run
start `ns`: `seg[noise_start:seg_len]` for START (line 248), the
clamped `seg[0:end]` for END (lines 249-252). -/
def gapOut (seg : Seg) (t : Trim) (ns : ℕ) : Seg :=
  match t with
  | .START => pySlice seg ns seg.length
  | .END => seg.take (if ns + 10 + 200 > seg.length then seg.length
                      else ns + 10 + 200)

/-- `CleanAudio.trim_silence` (lines 208-269).  `silence_slice = 10`,
`leading_ms = 250`, `max_noise = 100`, `end_extra_ms = 200`.  The
degenerate return `[]` of line 213 and the end-of-scan returns of lines
260-267 are modelled exactly; the `math.max` call of line 262 raises
`AttributeError` in Python and is modelled as an error. -/
def trim_silence (silenceThresh burstThresh : ℚ) (seg : Seg) (t : Trim) :
    Except String Seg :=
  let segLen := seg.length
  if segLen < 10 then .ok []
  else
    let idxs := match t with
      | .END => (List.range (segLen / 10)).reverse
      | .START => List.range (segLen / 10)
    match scanLoop silenceThresh burstThresh seg t idxs none none with
    | .ret out => .ok out
    | .fell noiseStart _ =>
      match noiseStart with
      | some ns =>
        match t with
        | .START => .error "AttributeError: module math has no attribute max"
        | .END =>
          .ok (seg.take (if ns + 10 + 200 > segLen then segLen
                         else ns + 10 + 200))
      | none => .ok seg

/-- The index sequence the scan walks (lines 228-230):
`range(int(seg_len / silence_slice))`, reversed for TRIM_END. -/
def trimIdxs (seg : Seg) : Trim → List ℕ
  | .START => List.range (seg.length / 10)
  | .END => (List.range (seg.length / 10)).reverse

/-- The running `noise_peak` accumulated over a list of slice indices:
every slice whose RMS exceeds the silence threshold feeds `peakUpd`,
quiet slices leave the accumulator alone (used to characterise the
peak the scan loop actually maintains). -/
def peakFold (σ : ℚ) (seg : Seg) : List ℕ → Option ℕ → Option ℕ
  | [], np => np
  | idx :: rest, np =>
    if (sliceRms seg idx : ℚ) > σ then
      peakFold σ seg rest (peakUpd np (sliceRms seg idx))
    else
      peakFold σ seg rest np

/-- The RMS values of the noisy slices among `idxs`, in scan order. -/
def noisyRms (σ : ℚ) (seg : Seg) (idxs : List ℕ) : List ℕ :=
  (idxs.filter (fun k => decide ((sliceRms seg k : ℚ) > σ))).map (sliceRms seg)

/-- `CleanAudio.dump_rms` (lines 271-275): one value per unit-step
window of width `silence_slice = 10`.  The printed value
`ratio_to_db(rms / max_possible_amplitude)` applies the real-valued
`20 * log10`; the conversion is passed in as the parameter
`ratioToDb`, and the printed sequence is modelled as the returned
list. -/
def dump_rms (ratioToDb : ℚ → ℚ) (maxAmp : ℚ) (seg : Seg) : List ℚ :=
  (List.range (seg.length - 10)).map
    (fun idx => ratioToDb ((segRms (pySlice seg idx (idx + 10)) : ℚ) / maxAmp))

/-! ### Step lemmas for the scan -/

theorem sliceRms_drop (seg : Seg) (d k : ℕ) :
    sliceRms (seg.drop (d * 10)) k = sliceRms seg (d + k) := by
  have h1 : d * 10 + k * 10 = (d + k) * 10 := by ring
  simp [sliceRms, pySlice, List.drop_drop, h1]

theorem decideLoop_nil (σ β : ℚ) (seg : Seg) (ns np : Option ℕ) :
    decideLoop σ β seg [] ns np = .fell ns np := rfl

theorem decideLoop_cons_noisy_none (σ β : ℚ) (seg : Seg) (idx : ℕ)
    (rest : List ℕ) (np : Option ℕ) (h : (sliceRms seg idx : ℚ) > σ) :
    decideLoop σ β seg (idx :: rest) none np
      = decideLoop σ β seg rest (some (idx * 10)) (peakUpd np (sliceRms seg idx)) := by
  simp only [decideLoop, sliceRms] at *
  rw [if_pos h]

theorem decideLoop_cons_noisy_gap (σ β : ℚ) (seg : Seg) (idx : ℕ)
    (rest : List ℕ) (ns : ℕ) (np : Option ℕ)
    (h : (sliceRms seg idx : ℚ) > σ)
    (hg : (((idx * 10 : ℕ) : ℤ) - (ns : ℤ)).natAbs > 100) :
    decideLoop σ β seg (idx :: rest) (some ns) np = .gap ns := by
  simp only [decideLoop, sliceRms] at *
  rw [if_pos h, if_pos hg]

theorem decideLoop_cons_noisy_nogap (σ β : ℚ) (seg : Seg) (idx : ℕ)
    (rest : List ℕ) (ns : ℕ) (np : Option ℕ)
    (h : (sliceRms seg idx : ℚ) > σ)
    (hg : ¬ (((idx * 10 : ℕ) : ℤ) - (ns : ℤ)).natAbs > 100) :
    decideLoop σ β seg (idx :: rest) (some ns) np
      = decideLoop σ β seg rest (some ns) (peakUpd np (sliceRms seg idx)) := by
  simp only [decideLoop, sliceRms] at *
  rw [if_pos h, if_neg hg]

theorem decideLoop_cons_quiet_none (σ β : ℚ) (seg : Seg) (idx : ℕ)
    (rest : List ℕ) (np : Option ℕ) (h : ¬ (sliceRms seg idx : ℚ) > σ) :
    decideLoop σ β seg (idx :: rest) none np
      = decideLoop σ β seg rest none np := by
  simp only [decideLoop, sliceRms] at *
  rw [if_neg h]

theorem decideLoop_cons_quiet_reset (σ β : ℚ) (seg : Seg) (idx : ℕ)
    (rest : List ℕ) (ns p : ℕ) (h : ¬ (sliceRms seg idx : ℚ) > σ)
    (hb : (p : ℚ) > β) :
    decideLoop σ β seg (idx :: rest) (some ns) (some p)
      = decideLoop σ β seg rest none (some p) := by
  simp only [decideLoop, sliceRms] at *
  rw [if_neg h, if_pos hb]

theorem decideLoop_cons_quiet_keep (σ β : ℚ) (seg : Seg) (idx : ℕ)
    (rest : List ℕ) (ns p : ℕ) (h : ¬ (sliceRms seg idx : ℚ) > σ)
    (hb : ¬ (p : ℚ) > β) :
    decideLoop σ β seg (idx :: rest) (some ns) (some p)
      = decideLoop σ β seg rest (some ns) (some p) := by
  simp only [decideLoop, sliceRms] at *
  rw [if_neg h, if_neg hb]

theorem decideLoop_cons_quiet_nopeak (σ β : ℚ) (seg : Seg) (idx : ℕ)
    (rest : List ℕ) (ns : Option ℕ) (h : ¬ (sliceRms seg idx : ℚ) > σ) :
    decideLoop σ β seg (idx :: rest) ns none
      = decideLoop σ β seg rest ns none := by
  simp only [decideLoop, sliceRms] at *
  rw [if_neg h]

/-- The faithful loop and the decision-recording loop agree: an early
return produces exactly the waveform `gapOut` builds from the decision. -/
theorem scanLoop_eq_decideLoop (σ β : ℚ) (seg : Seg) (t : Trim) :
    ∀ (idxs : List ℕ) (ns np : Option ℕ),
      scanLoop σ β seg t idxs ns np
        = match decideLoop σ β seg idxs ns np with
          | .gap n0 => .ret (gapOut seg t n0)
          | .fell a b => .fell a b := by
  intro idxs
  induction idxs with
  | nil => intro ns np; rfl
  | cons idx rest ih =>
    intro ns np
    by_cases hr : (segRms (pySlice seg (idx * 10) (idx * 10 + 10)) : ℚ) > σ
    · cases ns with
      | none => simp only [scanLoop, decideLoop, if_pos hr]; exact ih _ _
      | some n0 =>
        by_cases hg : (((idx * 10 : ℕ) : ℤ) - (n0 : ℤ)).natAbs > 100
        · cases t with
          | START =>
            simp only [scanLoop, decideLoop, if_pos hr]
            rw [if_pos hg, if_pos hg]
            rfl
          | END =>
            simp only [scanLoop, decideLoop, if_pos hr]
            rw [if_pos hg, if_pos hg]
            rfl
        · simp only [scanLoop, decideLoop, if_pos hr, if_neg hg]; exact ih _ _
    · cases ns with
      | none =>
        cases np with
        | none => simp only [scanLoop, decideLoop, if_neg hr]; exact ih _ _
        | some p => simp only [scanLoop, decideLoop, if_neg hr]; exact ih _ _
      | some n0 =>
        cases np with
        | none => simp only [scanLoop, decideLoop, if_neg hr]; exact ih _ _
        | some p =>
          by_cases hb : (p : ℚ) > β
          · simp only [scanLoop, decideLoop, if_neg hr, if_pos hb]; exact ih _ _
          · simp only [scanLoop, decideLoop, if_neg hr, if_neg hb]; exact ih _ _

/-! ### Characterisation of `trim_silence` through the scan decision -/

theorem trim_silence_short (σ β : ℚ) (seg : Seg) (t : Trim)
    (h : seg.length < 10) : trim_silence σ β seg t = .ok [] := by
  cases t <;> (simp only [trim_silence]; rw [if_pos h])

theorem trim_silence_of_gap (σ β : ℚ) (seg : Seg) (t : Trim) (n0 : ℕ)
    (h10 : 10 ≤ seg.length)
    (hd : decideLoop σ β seg (trimIdxs seg t) none none = .gap n0) :
    trim_silence σ β seg t = .ok (gapOut seg t n0) := by
  cases t with
  | START =>
    simp only [trimIdxs] at hd
    simp only [trim_silence]
    rw [if_neg (by omega), scanLoop_eq_decideLoop, hd]
  | END =>
    simp only [trimIdxs] at hd
    simp only [trim_silence]
    rw [if_neg (by omega), scanLoop_eq_decideLoop, hd]

theorem trim_silence_of_fell_none (σ β : ℚ) (seg : Seg) (t : Trim)
    (np : Option ℕ) (h10 : 10 ≤ seg.length)
    (hd : decideLoop σ β seg (trimIdxs seg t) none none = .fell none np) :
    trim_silence σ β seg t = .ok seg := by
  cases t with
  | START =>
    simp only [trimIdxs] at hd
    simp only [trim_silence]
    rw [if_neg (by omega), scanLoop_eq_decideLoop, hd]
  | END =>
    simp only [trimIdxs] at hd
    simp only [trim_silence]
    rw [if_neg (by omega), scanLoop_eq_decideLoop, hd]

theorem trim_silence_of_fell_some_start (σ β : ℚ) (seg : Seg) (ns : ℕ)
    (np : Option ℕ) (h10 : 10 ≤ seg.length)
    (hd : decideLoop σ β seg (trimIdxs seg .START) none none = .fell (some ns) np) :
    trim_silence σ β seg .START
      = .error "AttributeError: module math has no attribute max" := by
  simp only [trimIdxs] at hd
  simp only [trim_silence]
  rw [if_neg (by omega), scanLoop_eq_decideLoop, hd]

theorem trim_silence_of_fell_some_end (σ β : ℚ) (seg : Seg) (ns : ℕ)
    (np : Option ℕ) (h10 : 10 ≤ seg.length)
    (hd : decideLoop σ β seg (trimIdxs seg .END) none none = .fell (some ns) np) :
    trim_silence σ β seg .END
      = .ok (seg.take (if ns + 10 + 200 > seg.length then seg.length
                       else ns + 10 + 200)) := by
  simp only [trimIdxs] at hd
  simp only [trim_silence]
  rw [if_neg (by omega), scanLoop_eq_decideLoop, hd]

/-! ### Quiet slices leave a closed run closed -/

theorem decideLoop_quiet_append (σ β : ℚ) (seg : Seg) (idxs rest : List ℕ)
    (np : Option ℕ) (h : ∀ k ∈ idxs, ¬ (sliceRms seg k : ℚ) > σ) :
    decideLoop σ β seg (idxs ++ rest) none np
      = decideLoop σ β seg rest none np := by
  induction idxs with
  | nil => rfl
  | cons k ks ih =>
    rw [List.cons_append,
      decideLoop_cons_quiet_none σ β seg k (ks ++ rest) np (h k (by simp))]
    exact ih (fun x hx => h x (by simp [hx]))

theorem decideLoop_quiet_all (σ β : ℚ) (seg : Seg) (idxs : List ℕ)
    (np : Option ℕ) (h : ∀ k ∈ idxs, ¬ (sliceRms seg k : ℚ) > σ) :
    decideLoop σ β seg idxs none np = .fell none np := by
  have := decideLoop_quiet_append σ β seg idxs [] np h
  rwa [List.append_nil] at this

/-! ### What `noise_peak` accumulates -/

theorem peakUpd_some (p r : ℕ) : peakUpd (some p) r = some (max p r) := by
  simp only [peakUpd]
  rcases Nat.lt_or_ge p r with h | h
  · rw [if_pos h, Nat.max_eq_right (Nat.le_of_lt h)]
  · rw [if_neg (by omega), Nat.max_eq_left h]

/-- Whenever the scan loop completes without an early return, the final
`noise_peak` is exactly the `peakUpd`-fold of the processed slices over
the initial peak, whatever happened to `noise_start` on the way. -/
theorem decideLoop_fell_peak (σ β : ℚ) (seg : Seg) :
    ∀ (idxs : List ℕ) (ns np ns' np' : Option ℕ),
      decideLoop σ β seg idxs ns np = .fell ns' np' →
      np' = peakFold σ seg idxs np := by
  intro idxs
  induction idxs with
  | nil =>
    intro ns np ns' np' h
    rw [decideLoop_nil] at h
    cases h
    rfl
  | cons idx rest ih =>
    intro ns np ns' np' h
    by_cases hr : (sliceRms seg idx : ℚ) > σ
    · rw [peakFold, if_pos hr]
      cases ns with
      | none =>
        rw [decideLoop_cons_noisy_none σ β seg idx rest np hr] at h
        exact ih _ _ _ _ h
      | some n0 =>
        by_cases hg : (((idx * 10 : ℕ) : ℤ) - (n0 : ℤ)).natAbs > 100
        · rw [decideLoop_cons_noisy_gap σ β seg idx rest n0 np hr hg] at h
          cases h
        · rw [decideLoop_cons_noisy_nogap σ β seg idx rest n0 np hr hg] at h
          exact ih _ _ _ _ h
    · rw [peakFold, if_neg hr]
      cases ns with
      | none =>
        rw [decideLoop_cons_quiet_none σ β seg idx rest np hr] at h
        exact ih _ _ _ _ h
      | some n0 =>
        cases np with
        | none =>
          rw [decideLoop_cons_quiet_nopeak σ β seg idx rest _ hr] at h
          exact ih _ _ _ _ h
        | some p =>
          by_cases hb : (p : ℚ) > β
          · rw [decideLoop_cons_quiet_reset σ β seg idx rest n0 p hr hb] at h
            exact ih _ _ _ _ h
          · rw [decideLoop_cons_quiet_keep σ β seg idx rest n0 p hr hb] at h
            exact ih _ _ _ _ h

theorem peakFold_some (σ : ℚ) (seg : Seg) :
    ∀ (idxs : List ℕ) (p : ℕ),
      peakFold σ seg idxs (some p)
        = some ((noisyRms σ seg idxs).foldl max p) := by
  intro idxs
  induction idxs with
  | nil => intro p; rfl
  | cons idx rest ih =>
    intro p
    by_cases hr : (sliceRms seg idx : ℚ) > σ
    · rw [peakFold, if_pos hr, peakUpd_some, ih]
      simp [noisyRms, hr]
    · rw [peakFold, if_neg hr, ih]
      simp [noisyRms, hr]

theorem peakFold_none_eq_max (σ : ℚ) (seg : Seg) :
    ∀ (idxs : List ℕ),
      peakFold σ seg idxs none = (noisyRms σ seg idxs).max? := by
  intro idxs
  induction idxs with
  | nil => rfl
  | cons idx rest ih =>
    by_cases hr : (sliceRms seg idx : ℚ) > σ
    · rw [peakFold, if_pos hr]
      show peakFold σ seg rest (some (sliceRms seg idx)) = _
      rw [peakFold_some]
      simp [noisyRms, hr, List.max?]
    · rw [peakFold, if_neg hr, ih]
      simp [noisyRms, hr]

/-! ### Where a gap-confirmed run start can come from -/

/-- A gap-confirmed `noise_start` is either the one the loop started
with or was opened at one of the scanned indices. -/
theorem decideLoop_gap_mem (σ β : ℚ) (seg : Seg) :
    ∀ (idxs : List ℕ) (ns np : Option ℕ) (n0 : ℕ),
      decideLoop σ β seg idxs ns np = .gap n0 →
      ns = some n0 ∨ ∃ k ∈ idxs, n0 = k * 10 := by
  intro idxs
  induction idxs with
  | nil =>
    intro ns np n0 h
    rw [decideLoop_nil] at h
    cases h
  | cons idx rest ih =>
    intro ns np n0 h
    by_cases hr : (sliceRms seg idx : ℚ) > σ
    · cases ns with
      | none =>
        rw [decideLoop_cons_noisy_none σ β seg idx rest np hr] at h
        rcases ih _ _ _ h with h1 | ⟨k, hk, hk2⟩
        · exact Or.inr ⟨idx, by simp, (Option.some.inj h1).symm⟩
        · exact Or.inr ⟨k, by simp [hk], hk2⟩
      | some m0 =>
        by_cases hg : (((idx * 10 : ℕ) : ℤ) - (m0 : ℤ)).natAbs > 100
        · rw [decideLoop_cons_noisy_gap σ β seg idx rest m0 np hr hg] at h
          exact Or.inl (by rw [Decision.gap.inj h])
        · rw [decideLoop_cons_noisy_nogap σ β seg idx rest m0 np hr hg] at h
          rcases ih _ _ _ h with h1 | ⟨k, hk, hk2⟩
          · exact Or.inl h1
          · exact Or.inr ⟨k, by simp [hk], hk2⟩
    · cases ns with
      | none =>
        rw [decideLoop_cons_quiet_none σ β seg idx rest np hr] at h
        rcases ih _ _ _ h with h1 | ⟨k, hk, hk2⟩
        · cases h1
        · exact Or.inr ⟨k, by simp [hk], hk2⟩
      | some m0 =>
        cases np with
        | none =>
          rw [decideLoop_cons_quiet_nopeak σ β seg idx rest _ hr] at h
          rcases ih _ _ _ h with h1 | ⟨k, hk, hk2⟩
          · exact Or.inl h1
          · exact Or.inr ⟨k, by simp [hk], hk2⟩
        | some p =>
          by_cases hb : (p : ℚ) > β
          · rw [decideLoop_cons_quiet_reset σ β seg idx rest m0 p hr hb] at h
            rcases ih _ _ _ h with h1 | ⟨k, hk, hk2⟩
            · cases h1
            · exact Or.inr ⟨k, by simp [hk], hk2⟩
          · rw [decideLoop_cons_quiet_keep σ β seg idx rest m0 p hr hb] at h
            rcases ih _ _ _ h with h1 | ⟨k, hk, hk2⟩
            · exact Or.inl h1
            · exact Or.inr ⟨k, by simp [hk], hk2⟩

theorem div_sub_helper (len i : ℕ) (h : 10 * i ≤ len) :
    (len - 10 * i) / 10 = len / 10 - i := by
  have h1 := Nat.div_add_mod len 10
  have hrlt : len % 10 < 10 := Nat.mod_lt _ (by omega)
  have hiq : i ≤ len / 10 := by omega
  have h2 : len - 10 * i = len % 10 + 10 * (len / 10 - i) := by omega
  rw [h2, Nat.add_mul_div_left _ _ (by omega : (0:ℕ) < 10)]
  have h3 : len % 10 / 10 = 0 := Nat.div_eq_of_lt hrlt
  omega

/-! ### Rescanning a suffix that begins at a confirmed run start -/

/-- Simulation: if the scan of `seg`, with a run open since offset
`i * 10` and current peak `p1`, goes on to gap-confirm that very run,
then the same scan positions on `seg` with the first `i * 10`
milliseconds removed, run open since offset `0` and any peak
`p2 ≤ p1`, gap-confirms the run at offset `0`. -/
theorem decideLoop_sim_drop (σ β : ℚ) (seg : Seg) (i : ℕ) :
    ∀ (m : ℕ), ∀ (j p1 p2 : ℕ), i < j → p2 ≤ p1 →
      decideLoop σ β seg (List.range' j m) (some (i * 10)) (some p1)
        = .gap (i * 10) →
      decideLoop σ β (seg.drop (i * 10)) (List.range' (j - i) m)
          (some 0) (some p2)
        = .gap 0 := by
  intro m
  induction m with
  | zero =>
    intro j p1 p2 hij hp h
    simp only [List.range'] at h
    rw [decideLoop_nil] at h
    cases h
  | succ m ih =>
    intro j p1 p2 hij hp h
    have hs : sliceRms (seg.drop (i * 10)) (j - i) = sliceRms seg j := by
      have h0 := sliceRms_drop seg i (j - i)
      rwa [Nat.add_sub_cancel' (le_of_lt hij)] at h0
    rw [List.range'_succ] at h
    rw [List.range'_succ]
    by_cases hr : (sliceRms seg j : ℚ) > σ
    · have hr2 : (sliceRms (seg.drop (i * 10)) (j - i) : ℚ) > σ := by rwa [hs]
      by_cases hg : (j - i) * 10 > 100
      · rw [decideLoop_cons_noisy_gap σ β _ _ _ 0 (some p2) hr2 (by omega)]
      · have hg1 : ¬ (((j * 10 : ℕ) : ℤ) - ((i * 10 : ℕ) : ℤ)).natAbs > 100 := by
          omega
        rw [decideLoop_cons_noisy_nogap σ β seg j _ (i * 10) (some p1) hr hg1,
          peakUpd_some] at h
        rw [decideLoop_cons_noisy_nogap σ β _ (j - i) _ 0 (some p2) hr2 (by omega),
          peakUpd_some, hs]
        have h2 := ih (j + 1) (max p1 (sliceRms seg j)) (max p2 (sliceRms seg j))
          (by omega) (max_le_max hp (le_refl _)) h
        rwa [show j + 1 - i = j - i + 1 by omega] at h2
    · have hr2 : ¬ (sliceRms (seg.drop (i * 10)) (j - i) : ℚ) > σ := by rwa [hs]
      by_cases hb : (p1 : ℚ) > β
      · rw [decideLoop_cons_quiet_reset σ β seg j _ _ p1 hr hb] at h
        rcases decideLoop_gap_mem σ β seg _ _ _ _ h with h1 | ⟨k, hk, hk2⟩
        · cases h1
        · rw [List.mem_range'_1] at hk
          have : i = k := by omega
          omega
      · have hb2 : ¬ (p2 : ℚ) > β := by
          have : (p2 : ℚ) ≤ (p1 : ℚ) := by exact_mod_cast hp
          intro hc
          exact hb (lt_of_lt_of_le hc this)
        rw [decideLoop_cons_quiet_keep σ β seg j _ _ p1 hr hb] at h
        rw [decideLoop_cons_quiet_keep σ β _ (j - i) _ 0 p2 hr2 hb2]
        have h2 := ih (j + 1) p1 p2 (by omega) hp h
        rwa [show j + 1 - i = j - i + 1 by omega] at h2

theorem peakUpd_ge (op : Option ℕ) (r : ℕ) :
    ∃ q, peakUpd op r = some q ∧ r ≤ q := by
  cases op with
  | none => exact ⟨r, rfl, le_refl r⟩
  | some p => exact ⟨max p r, peakUpd_some p r, le_max_right p r⟩

theorem extract_lift (σ β : ℚ) (seg : Seg) (s m n0 : ℕ)
    (h : ∃ i p, s + 1 ≤ i ∧ i < s + 1 + m ∧ n0 = i * 10 ∧
      (sliceRms seg i : ℚ) > σ ∧ sliceRms seg i ≤ p ∧
      decideLoop σ β seg (List.range' (i + 1) (s + 1 + m - (i + 1)))
          (some (i * 10)) (some p) = .gap (i * 10)) :
    ∃ i p, s ≤ i ∧ i < s + (m + 1) ∧ n0 = i * 10 ∧
      (sliceRms seg i : ℚ) > σ ∧ sliceRms seg i ≤ p ∧
      decideLoop σ β seg (List.range' (i + 1) (s + (m + 1) - (i + 1)))
          (some (i * 10)) (some p) = .gap (i * 10) := by
  obtain ⟨i, p, h1, h2, h3, h4, h5, h6⟩ := h
  exact ⟨i, p, by omega, by omega, h3, h4, h5,
    by rwa [show s + (m + 1) - (i + 1) = s + 1 + m - (i + 1) by omega]⟩

/-- Extraction: a gap confirmation reached from a state with no open
run pins down the index `i` where the confirmed run was opened: slice
`i` is noisy, and from the state just after opening (run at `i * 10`,
peak at least the opening RMS) the rest of the scan still confirms at
`i * 10`. -/
theorem decideLoop_gap_extract (σ β : ℚ) (seg : Seg) :
    ∀ (m : ℕ), ∀ (s : ℕ) (os op : Option ℕ) (n0 : ℕ),
      decideLoop σ β seg (List.range' s m) os op = .gap n0 →
      os = some n0 ∨
      ∃ i p, s ≤ i ∧ i < s + m ∧ n0 = i * 10 ∧
        (sliceRms seg i : ℚ) > σ ∧ sliceRms seg i ≤ p ∧
        decideLoop σ β seg (List.range' (i + 1) (s + m - (i + 1)))
            (some (i * 10)) (some p) = .gap (i * 10) := by
  intro m
  induction m with
  | zero =>
    intro s os op n0 h
    simp only [List.range'] at h
    rw [decideLoop_nil] at h
    cases h
  | succ m ih =>
    intro s os op n0 h
    rw [List.range'_succ] at h
    by_cases hr : (sliceRms seg s : ℚ) > σ
    · cases os with
      | none =>
        rw [decideLoop_cons_noisy_none σ β seg s _ op hr] at h
        obtain ⟨q, hq_eq, hq_ge⟩ := peakUpd_ge op (sliceRms seg s)
        rw [hq_eq] at h
        rcases ih (s + 1) (some (s * 10)) (some q) n0 h with h1 | h1
        · have hn : n0 = s * 10 := (Option.some.inj h1).symm
          refine Or.inr ⟨s, q, le_refl s, by omega, hn, hr, hq_ge, ?_⟩
          rw [show s + (m + 1) - (s + 1) = m by omega]
          rw [hn] at h
          exact h
        · exact Or.inr (extract_lift σ β seg s m n0 h1)
      | some m0 =>
        by_cases hg : (((s * 10 : ℕ) : ℤ) - (m0 : ℤ)).natAbs > 100
        · rw [decideLoop_cons_noisy_gap σ β seg s _ m0 op hr hg] at h
          exact Or.inl (by rw [Decision.gap.inj h])
        · rw [decideLoop_cons_noisy_nogap σ β seg s _ m0 op hr hg] at h
          rcases ih (s + 1) (some m0) _ n0 h with h1 | h1
          · exact Or.inl h1
          · exact Or.inr (extract_lift σ β seg s m n0 h1)
    · cases os with
      | none =>
        rw [decideLoop_cons_quiet_none σ β seg s _ op hr] at h
        rcases ih (s + 1) none op n0 h with h1 | h1
        · cases h1
        · exact Or.inr (extract_lift σ β seg s m n0 h1)
      | some m0 =>
        cases op with
        | none =>
          rw [decideLoop_cons_quiet_nopeak σ β seg s _ _ hr] at h
          rcases ih (s + 1) (some m0) none n0 h with h1 | h1
          · exact Or.inl h1
          · exact Or.inr (extract_lift σ β seg s m n0 h1)
        | some p =>
          by_cases hb : (p : ℚ) > β
          · rw [decideLoop_cons_quiet_reset σ β seg s _ m0 p hr hb] at h
            rcases ih (s + 1) none (some p) n0 h with h1 | h1
            · cases h1
            · exact Or.inr (extract_lift σ β seg s m n0 h1)
          · rw [decideLoop_cons_quiet_keep σ β seg s _ m0 p hr hb] at h
            rcases ih (s + 1) (some m0) (some p) n0 h with h1 | h1
            · exact Or.inl h1
            · exact Or.inr (extract_lift σ β seg s m n0 h1)

theorem pySlice_drop_all (seg : Seg) (a : ℕ) :
    pySlice seg a seg.length = seg.drop a := by
  unfold pySlice
  rw [← List.length_drop]
  exact List.take_length _

/-- C7: `trim_silence` with direction START is idempotent: whenever a
first application returns a waveform, applying it again (same
thresholds) returns that waveform unchanged. -/
theorem c7_trim_start_idempotent (σ β : ℚ) (seg out : Seg)
    (h : trim_silence σ β seg .START = .ok out) :
    trim_silence σ β out .START = .ok out := by
  by_cases hlen : seg.length < 10
  · rw [trim_silence_short σ β seg .START hlen] at h
    have hout : out = [] := (Except.ok.inj h).symm
    subst hout
    exact trim_silence_short σ β [] .START (by simp)
  · have h10 : 10 ≤ seg.length := by omega
    rcases hd : decideLoop σ β seg (trimIdxs seg .START) none none with n0 | ⟨ns, np⟩
    · -- gap-confirmed during the first scan
      rw [trim_silence_of_gap σ β seg .START n0 h10 hd] at h
      have hout : out = pySlice seg n0 seg.length := (Except.ok.inj h).symm
      have hd' : decideLoop σ β seg (List.range' 0 (seg.length / 10)) none none
          = .gap n0 := by
        rw [← List.range_eq_range']
        exact hd
      rcases decideLoop_gap_extract σ β seg (seg.length / 10) 0 none none n0 hd'
        with h1 | ⟨i, p, _, hi_lt, hn0, hr_noisy, hrp, htail⟩
      · cases h1
      · have hi_lt' : i < seg.length / 10 := by omega
        have hmul : 10 * (seg.length / 10) ≤ seg.length := by omega
        have hi10 : 10 * i + 10 ≤ seg.length := by omega
        have hout2 : out = seg.drop (i * 10) := by
          rw [hout, hn0, pySlice_drop_all]
        have hlen_out : out.length = seg.length - i * 10 := by
          rw [hout2, List.length_drop]
        have h10' : 10 ≤ out.length := by omega
        have hdiv : out.length / 10 = seg.length / 10 - i := by
          rw [hlen_out]
          omega
        -- the rescan opens a run at its very first slice
        have hs0 : sliceRms out 0 = sliceRms seg i := by
          rw [hout2]
          have h0 := sliceRms_drop seg i 0
          rwa [Nat.add_zero] at h0
        have hd2 : decideLoop σ β out (trimIdxs out .START) none none = .gap 0 := by
          have hn' : out.length / 10 = (out.length / 10 - 1) + 1 := by omega
          simp only [trimIdxs]
          rw [List.range_eq_range', hn', List.range'_succ]
          have hr0 : (sliceRms out 0 : ℚ) > σ := by rwa [hs0]
          rw [decideLoop_cons_noisy_none σ β out 0 _ none hr0]
          simp only [Nat.zero_mul, peakUpd, hs0]
          have hsim := decideLoop_sim_drop σ β seg i
            ((seg.length / 10) - (i + 1)) (i + 1) p (sliceRms seg i)
            (by omega) hrp
            (by rwa [show 0 + seg.length / 10 - (i + 1)
                       = seg.length / 10 - (i + 1) by omega] at htail)
          rw [show i + 1 - i = 1 by omega] at hsim
          rw [show out.length / 10 - 1 = seg.length / 10 - (i + 1) by omega]
          rw [hout2]
          exact hsim
        rw [trim_silence_of_gap σ β out .START 0 h10' hd2]
        rw [gapOut, pySlice_drop_all, List.drop_zero]
    · -- the loop fell through
      cases ns with
      | none =>
        rw [trim_silence_of_fell_none σ β seg .START np h10 hd] at h
        have hout : out = seg := (Except.ok.inj h).symm
        subst hout
        rw [trim_silence_of_fell_none σ β out .START np h10 hd]
      | some m0 =>
        rw [trim_silence_of_fell_some_start σ β seg m0 np h10 hd] at h
        cases h

/-! ### Confirmation of a sustained noisy run -/

/-- Walking forward inside an open run (opened at `i0 * 10`) over noisy
slices, the gap rule confirms the run at slice `i0 + 11`. -/
theorem decideLoop_asc_run (σ β : ℚ) (seg : Seg) (i0 : ℕ) :
    ∀ (m : ℕ), ∀ (j p : ℕ), i0 < j → j ≤ i0 + 11 → i0 + 11 < j + m →
      (∀ k, j ≤ k → k ≤ i0 + 11 → (sliceRms seg k : ℚ) > σ) →
      decideLoop σ β seg (List.range' j m) (some (i0 * 10)) (some p)
        = .gap (i0 * 10) := by
  intro m
  induction m with
  | zero =>
    intro j p h1 h2 h3 _
    omega
  | succ m ih =>
    intro j p h1 h2 h3 hns
    rw [List.range'_succ]
    have hrj : (sliceRms seg j : ℚ) > σ := hns j (le_refl j) h2
    by_cases hj : j = i0 + 11
    · exact decideLoop_cons_noisy_gap σ β seg j _ (i0 * 10) (some p) hrj
        (by omega)
    · rw [decideLoop_cons_noisy_nogap σ β seg j _ (i0 * 10) (some p) hrj
        (by omega)]
      obtain ⟨q, hq, _⟩ := peakUpd_ge (some p) (sliceRms seg j)
      rw [hq]
      exact ih (j + 1) q (by omega) (by omega) (by omega)
        (fun k hk1 hk2 => hns k (by omega) hk2)

/-- Opening a run at a noisy slice `i0` followed by at least 11 more
noisy slices: the scan gap-confirms the run at offset `i0 * 10`. -/
theorem decideLoop_asc_confirm (σ β : ℚ) (seg : Seg) (i0 m : ℕ)
    (op : Option ℕ) (hm : 12 ≤ m)
    (hns : ∀ k, i0 ≤ k → k ≤ i0 + 11 → (sliceRms seg k : ℚ) > σ) :
    decideLoop σ β seg (List.range' i0 m) none op = .gap (i0 * 10) := by
  rw [show m = (m - 1) + 1 by omega, List.range'_succ]
  rw [decideLoop_cons_noisy_none σ β seg i0 _ op
    (hns i0 (le_refl i0) (by omega))]
  obtain ⟨q, hq, _⟩ := peakUpd_ge op (sliceRms seg i0)
  rw [hq]
  exact decideLoop_asc_run σ β seg i0 (m - 1) (i0 + 1) q (by omega) (by omega)
    (by omega) (fun k hk1 hk2 => hns k (by omega) hk2)

theorem range_reverse_succ (n : ℕ) :
    (List.range (n + 1)).reverse = n :: (List.range n).reverse := by
  rw [List.range_succ, List.reverse_append]
  rfl

/-- Walking backward inside an open run (opened at `i0 * 10`, with
`11 ≤ i0`) over noisy slices, the gap rule confirms the run at slice
`i0 - 11`.  The remaining descending indices are `j - 1, ..., 0`. -/
theorem decideLoop_desc_run (σ β : ℚ) (seg : Seg) (i0 : ℕ) :
    ∀ (j : ℕ), ∀ (p : ℕ), j ≤ i0 → i0 ≤ j + 10 → 11 ≤ i0 →
      (∀ k, i0 - 11 ≤ k → k ≤ i0 → (sliceRms seg k : ℚ) > σ) →
      decideLoop σ β seg ((List.range j).reverse)
          (some (i0 * 10)) (some p)
        = .gap (i0 * 10) := by
  intro j
  induction j with
  | zero =>
    intro p h1 h2 h3 hns
    omega
  | succ j ih =>
    intro p h1 h2 h3 hns
    rw [range_reverse_succ]
    have hrj : (sliceRms seg j : ℚ) > σ := hns j (by omega) (by omega)
    by_cases hj : i0 = j + 11
    · exact decideLoop_cons_noisy_gap σ β seg j _ (i0 * 10) (some p) hrj
        (by omega)
    · rw [decideLoop_cons_noisy_nogap σ β seg j _ (i0 * 10) (some p) hrj
        (by omega)]
      obtain ⟨q, hq, _⟩ := peakUpd_ge (some p) (sliceRms seg j)
      rw [hq]
      exact ih q (by omega) (by omega) h3 hns

/-- A reversed scan (TRIM_END) over a waveform whose slices above `i0`
are quiet and whose slices `i0 - 11 .. i0` are noisy gap-confirms the
run opened at `i0 * 10` (needs `11 ≤ i0 < n`). -/
theorem decideLoop_desc_confirm (σ β : ℚ) (seg : Seg) (i0 n : ℕ)
    (op : Option ℕ) (h11 : 11 ≤ i0) (hin : i0 < n)
    (hq : ∀ k, i0 < k → k < n → ¬ (sliceRms seg k : ℚ) > σ)
    (hns : ∀ k, i0 - 11 ≤ k → k ≤ i0 → (sliceRms seg k : ℚ) > σ) :
    decideLoop σ β seg ((List.range n).reverse) none op = .gap (i0 * 10) := by
  have hsplit : List.range n
      = List.range (i0 + 1) ++ List.range' (i0 + 1) (n - (i0 + 1)) := by
    rw [List.range_eq_range', List.range_eq_range']
    have := List.range'_append 0 (i0 + 1) (n - (i0 + 1)) 1
    simp only [Nat.zero_add, Nat.one_mul] at this
    rw [this, show n - (i0 + 1) + (i0 + 1) = n by omega]
  rw [hsplit, List.reverse_append]
  rw [decideLoop_quiet_append σ β seg _ _ op
    (by
      intro k hk
      rw [List.mem_reverse, List.mem_range'_1] at hk
      exact hq k (by omega) (by omega))]
  rw [show i0 + 1 = i0 + 1 by rfl, range_reverse_succ]
  rw [decideLoop_cons_noisy_none σ β seg i0 _ op
    (hns i0 (by omega) (le_refl i0))]
  obtain ⟨q, hq2, _⟩ := peakUpd_ge op (sliceRms seg i0)
  rw [hq2]
  exact decideLoop_desc_run σ β seg i0 i0 q (le_refl i0) (by omega) h11 hns

/-! ### The claims -/

/-- C1, counterexample: with a run open at offset 0 and peak 100 above
the burst threshold 30, a quiet slice CLOSES the run (the state falls
through with `noise_start = None`), although the claim says a run whose
peak exceeded the burst threshold remains open.  Lines 253-258 reset
exactly when `noise_peak > burst_thresh` — the reverse of the claim. -/
theorem c1_counterexample :
    ((100 : ℚ) > 30
      ∧ ¬ (sliceRms (List.replicate 20 0 : Seg) 1 : ℚ) > 3)
    ∧ decideLoop 3 30 (List.replicate 20 0 : Seg) [1] (some 0) (some 100)
        = .fell none (some 100) := by
  decide

/-- C1, amended: when a quiet slice (RMS not exceeding the silence
threshold) is met while a run is open, the run is closed if and only if
its recorded peak DID exceed the burst threshold; if the peak never
exceeded it, the run remains open. -/
theorem c1_amended_reset_iff_peak_exceeds (σ β : ℚ) (seg : Seg) (t : Trim)
    (idx : ℕ) (rest : List ℕ) (ns p : ℕ)
    (hq : ¬ (sliceRms seg idx : ℚ) > σ) :
    scanLoop σ β seg t (idx :: rest) (some ns) (some p)
      = scanLoop σ β seg t rest
          (if (p : ℚ) > β then none else some ns) (some p) := by
  simp only [sliceRms] at hq
  by_cases hb : (p : ℚ) > β
  · rw [if_pos hb]
    simp only [scanLoop]
    rw [if_neg hq, if_pos hb]
  · rw [if_neg hb]
    simp only [scanLoop]
    rw [if_neg hq, if_neg hb]

/-- Witness for C1 at a concrete quiet slice. -/
theorem c1_witness :
    scanLoop 3 30 (List.replicate 20 0 : Seg) .START [1] (some 0) (some 100)
      = scanLoop 3 30 (List.replicate 20 0 : Seg) .START []
          (if (100 : ℚ) > 30 then none else some 0) (some 100) :=
  c1_amended_reset_iff_peak_exceeds 3 30 (List.replicate 20 0) .START 1 [] 0 100
    (by decide)

/-- C2 (code bug): on a valid 20ms waveform whose two slices are both
noisy, the START scan ends with the run still open and line 262
executes `math.max(noise_start - leading_ms, 0)`; the Python `math`
module has no attribute `max`, so `trim_silence` raises
`AttributeError` instead of returning — contradicting the claim that it
never raises for valid input. -/
theorem c2_math_max_raises :
    trim_silence 3 30 (List.replicate 20 100 : Seg) .START
      = .error "AttributeError: module math has no attribute max" := by
  decide

/-- C3, counterexample: an all-noisy 30ms waveform; the START scan
completes with the run still open at offset 0 (confirmed at end of
scan), yet the result is not the claimed sub-range from the run start —
the call raises the `math.max` `AttributeError` instead. -/
theorem c3_counterexample :
    decideLoop 3 30 (List.replicate 30 100 : Seg)
        (trimIdxs (List.replicate 30 100 : Seg) .START) none none
      = .fell (some 0) (some 100)
    ∧ trim_silence 3 30 (List.replicate 30 100 : Seg) .START
        ≠ .ok (pySlice (List.replicate 30 100 : Seg) 0
            (List.replicate 30 100 : Seg).length) := by
  decide

/-- C3, amended: when the START scan confirms a run through the gap
rule, the result is exactly `seg[noise_start:seg_len]` — from the run
start to the waveform's end with no extra leading margin.  When a run
is only confirmed because it is still open at end of scan, the call
instead raises `AttributeError` (line 262 uses the nonexistent
`math.max`; as written that path would have subtracted a 250ms leading
margin). -/
theorem c3_amended_start_result (σ β : ℚ) (seg : Seg) (n0 : ℕ)
    (h10 : 10 ≤ seg.length) :
    (decideLoop σ β seg (trimIdxs seg .START) none none = .gap n0 →
      trim_silence σ β seg .START = .ok (pySlice seg n0 seg.length))
    ∧ (∀ np : Option ℕ,
        decideLoop σ β seg (trimIdxs seg .START) none none = .fell (some n0) np →
        trim_silence σ β seg .START
          = .error "AttributeError: module math has no attribute max") := by
  constructor
  · intro hd
    rw [trim_silence_of_gap σ β seg .START n0 h10 hd]
    rfl
  · intro np hd
    exact trim_silence_of_fell_some_start σ β seg n0 np h10 hd

/-- Witness for C3 at a concrete gap-rule confirmation. -/
theorem c3_witness :
    trim_silence 3 30 (List.replicate 30 0 ++ List.replicate 120 100 : Seg) .START
      = .ok (pySlice (List.replicate 30 0 ++ List.replicate 120 100 : Seg) 30
          (List.replicate 30 0 ++ List.replicate 120 100 : Seg).length) :=
  (c3_amended_start_result 3 30 (List.replicate 30 0 ++ List.replicate 120 100) 30
    (by decide)).1 (by decide)

/-- C4, counterexample: a scan over slices `[0, 1, 2]` of a waveform
whose slice 0 has RMS 100 (above burst 30), slice 1 is quiet (closing
that run), and slice 2 has RMS 10 (opening a new run at offset 20).
The state after the scan is `noise_start = 20`, `noise_peak = 100`:
the peak carried over from the earlier, closed run, although the claim
says the peak restarts from the new run's first slice (RMS 10). -/
theorem c4_counterexample :
    decideLoop 3 30
        ((List.replicate 10 100 ++ List.replicate 10 0)
          ++ (List.replicate 10 10 ++ List.replicate 30 0) : Seg)
        [0, 1, 2] none none
      = .fell (some 20) (some 100)
    ∧ sliceRms
        ((List.replicate 10 100 ++ List.replicate 10 0)
          ++ (List.replicate 10 10 ++ List.replicate 30 0) : Seg) 2 = 10
    ∧ (100 : ℕ) ≠ 10 := by
  decide

/-- C4, amended: whenever the loop completes a list of slices without
an early return, `noise_peak` is the maximum RMS over ALL noisy slices
scanned so far — it is never reset when a run closes, so a new run
inherits the peak of earlier runs in the same scan. -/
theorem c4_amended_peak_is_scan_max (σ β : ℚ) (seg : Seg) (idxs : List ℕ)
    (ns np : Option ℕ)
    (h : decideLoop σ β seg idxs none none = .fell ns np) :
    np = (noisyRms σ seg idxs).max? :=
  (decideLoop_fell_peak σ β seg idxs none none ns np h).trans
    (peakFold_none_eq_max σ seg idxs)

/-- Witness for C4 on the carried-over-peak scan. -/
theorem c4_witness :
    (some 100 : Option ℕ)
      = (noisyRms 3
          ((List.replicate 10 100 ++ List.replicate 10 0)
            ++ (List.replicate 10 10 ++ List.replicate 30 0) : Seg)
          [0, 1, 2]).max? :=
  c4_amended_peak_is_scan_max 3 30
    ((List.replicate 10 100 ++ List.replicate 10 0)
      ++ (List.replicate 10 10 ++ List.replicate 30 0))
    [0, 1, 2] (some 20) (some 100) (by decide)

/-- C5: whenever the END scan confirms a noise run at offset `ns` —
through the gap rule or because the run is still open at end of scan —
the result is the sub-range from the waveform's start to
`min(ns + silence_slice + end_extra, seg_len)` with
`silence_slice = 10` and `end_extra = 200`. -/
theorem c5_end_result (σ β : ℚ) (seg : Seg) (ns : ℕ)
    (h : decideLoop σ β seg (trimIdxs seg .END) none none = .gap ns
      ∨ ∃ np, decideLoop σ β seg (trimIdxs seg .END) none none
          = .fell (some ns) np) :
    trim_silence σ β seg .END
      = .ok (seg.take (min (ns + 10 + 200) seg.length)) := by
  by_cases hlen : seg.length < 10
  · have hnil : trimIdxs seg .END = [] := by
      simp [trimIdxs, Nat.div_eq_of_lt hlen]
    rcases h with h | ⟨np, h⟩ <;> rw [hnil, decideLoop_nil] at h <;> simp at h
  · have h10 : 10 ≤ seg.length := by omega
    have hmin : (if ns + 10 + 200 > seg.length then seg.length
        else ns + 10 + 200) = min (ns + 10 + 200) seg.length := by
      rcases le_or_lt (ns + 10 + 200) seg.length with h3 | h3
      · rw [if_neg (by omega), min_eq_left h3]
      · rw [if_pos (by omega), min_eq_right (by omega)]
    rcases h with h | ⟨np, h⟩
    · rw [trim_silence_of_gap σ β seg .END ns h10 h]
      rw [show gapOut seg .END ns
          = seg.take (if ns + 10 + 200 > seg.length then seg.length
              else ns + 10 + 200) from rfl, hmin]
    · rw [trim_silence_of_fell_some_end σ β seg ns np h10 h, hmin]

/-- Witness for C5: a run open at offset 0 at end of the reversed scan. -/
theorem c5_witness :
    trim_silence 3 30 (List.replicate 10 100 ++ List.replicate 220 0 : Seg) .END
      = .ok ((List.replicate 10 100 ++ List.replicate 220 0 : Seg).take
          (min (0 + 10 + 200)
            (List.replicate 10 100 ++ List.replicate 220 0 : Seg).length)) :=
  c5_end_result 3 30 (List.replicate 10 100 ++ List.replicate 220 0) 0
    (Or.inr ⟨some 100, by decide⟩)

/-- C6: a waveform strictly shorter than one 10ms slice yields the
empty result, as a normal return, for both directions. -/
theorem c6_degenerate_empty (σ β : ℚ) (seg : Seg) (h : seg.length < 10) :
    trim_silence σ β seg .START = .ok [] ∧ trim_silence σ β seg .END = .ok [] :=
  ⟨trim_silence_short σ β seg .START h, trim_silence_short σ β seg .END h⟩

/-- Witness for C6 on a 3ms waveform. -/
theorem c6_witness :
    trim_silence 3 30 ([5, 5, 5] : Seg) .START = .ok []
      ∧ trim_silence 3 30 ([5, 5, 5] : Seg) .END = .ok [] :=
  c6_degenerate_empty 3 30 [5, 5, 5] (by decide)

/-- Witness for C7 on an all-quiet waveform, a fixed point of START
trimming. -/
theorem c7_witness :
    trim_silence 3 30 (List.replicate 10 0 : Seg) .START
      = .ok (List.replicate 10 0) :=
  c7_trim_start_idempotent 3 30 (List.replicate 10 0) (List.replicate 10 0)
    (by decide)

/-- C9: a waveform of at least one slice on which no noise run ever
opens — every scanned slice's RMS is at or below the silence
threshold — is returned unchanged by both directions. -/
theorem c9_all_quiet_unchanged (σ β : ℚ) (seg : Seg)
    (h10 : 10 ≤ seg.length)
    (hq : ∀ i, i < seg.length / 10 → ¬ (sliceRms seg i : ℚ) > σ) :
    trim_silence σ β seg .START = .ok seg
      ∧ trim_silence σ β seg .END = .ok seg := by
  constructor
  · refine trim_silence_of_fell_none σ β seg .START none h10 ?_
    refine decideLoop_quiet_all σ β seg _ none ?_
    intro k hk
    simp only [trimIdxs, List.mem_range] at hk
    exact hq k hk
  · refine trim_silence_of_fell_none σ β seg .END none h10 ?_
    refine decideLoop_quiet_all σ β seg _ none ?_
    intro k hk
    simp only [trimIdxs, List.mem_reverse, List.mem_range] at hk
    exact hq k hk

/-- Witness for C9 on an all-silent waveform. -/
theorem c9_witness :
    trim_silence 3 30 (List.replicate 20 0 : Seg) .START
        = .ok (List.replicate 20 0)
      ∧ trim_silence 3 30 (List.replicate 20 0 : Seg) .END
        = .ok (List.replicate 20 0) :=
  c9_all_quiet_unchanged 3 30 (List.replicate 20 0) (by decide) (by decide)

/-- C10: `dump_rms` (the spec's `measure_energy_profile`) produces
exactly `max(0, L - W)` values for a length-`L` waveform and slice
width `W = 10`, and each value is a fixed function of the input alone:
the `i`-th value is the converted RMS of the window `seg[i:i+10]`
(so two calls on the same input yield the same sequence — the
embedding is a pure function, and no state survives a call). -/
theorem c10_profile_length_pure (f : ℚ → ℚ) (amp : ℚ) (seg : Seg) :
    ((dump_rms f amp seg).length : ℤ) = max ((seg.length : ℤ) - 10) 0
    ∧ ∀ i, i < seg.length - 10 →
      (dump_rms f amp seg).getD i 0
        = f ((segRms (pySlice seg i (i + 10)) : ℚ) / amp) := by
  constructor
  · have hl : (dump_rms f amp seg).length = seg.length - 10 := by
      simp [dump_rms]
    rw [hl]
    omega
  · intro i hi
    simp [dump_rms, List.getD_eq_getElem?_getD, List.getElem?_map,
      List.getElem?_range, hi]

/-- Witness for C10 on a 12ms constant waveform. -/
theorem c10_witness :
    ((dump_rms (fun x => x) 1 (List.replicate 12 5 : Seg)).length : ℤ)
        = max (((List.replicate 12 5 : Seg).length : ℤ) - 10) 0
      ∧ (dump_rms (fun x => x) 1 (List.replicate 12 5 : Seg)).getD 0 0
        = (fun x => x)
            ((segRms (pySlice (List.replicate 12 5 : Seg) 0 (0 + 10)) : ℚ) / 1) :=
  ⟨(c10_profile_length_pure (fun x => x) 1 (List.replicate 12 5)).1,
    (c10_profile_length_pure (fun x => x) 1 (List.replicate 12 5)).2 0 (by decide)⟩

/-- C8, counterexample: the concrete 1000ms scenario (slices 0-29
quiet, slices 30-69 with RMS 100 above both thresholds, slices 70-99
quiet, thresholds 3 and 30).  START returns the samples from 300ms as
claimed, but END applied to that result keeps its first 600ms — not the
claimed 510ms: the reversed scan opens its run at the last noisy slice,
offset 390 of the 700ms result, giving `min(390 + 10 + 200, 700) = 600`. -/
theorem c8_counterexample :
    (∀ i, i < 30 →
      ¬ (sliceRms (List.replicate 300 0
          ++ (List.replicate 400 100 ++ List.replicate 300 0) : Seg) i : ℚ) > 3)
    ∧ (∀ i, i < 70 → 30 ≤ i →
        (sliceRms (List.replicate 300 0
            ++ (List.replicate 400 100 ++ List.replicate 300 0) : Seg) i : ℚ) > 3
        ∧ (sliceRms (List.replicate 300 0
            ++ (List.replicate 400 100 ++ List.replicate 300 0) : Seg) i : ℚ) > 30)
    ∧ (∀ i, i < 100 → 70 ≤ i →
        ¬ (sliceRms (List.replicate 300 0
            ++ (List.replicate 400 100 ++ List.replicate 300 0) : Seg) i : ℚ) > 3)
    ∧ trim_silence 3 30 (List.replicate 300 0
          ++ (List.replicate 400 100 ++ List.replicate 300 0) : Seg) .START
        = .ok ((List.replicate 300 0
          ++ (List.replicate 400 100 ++ List.replicate 300 0) : Seg).drop 300)
    ∧ trim_silence 3 30 ((List.replicate 300 0
          ++ (List.replicate 400 100 ++ List.replicate 300 0) : Seg).drop 300) .END
        = .ok (((List.replicate 300 0
          ++ (List.replicate 400 100 ++ List.replicate 300 0) : Seg).drop 300).take 600)
    ∧ ((List.replicate 300 0
          ++ (List.replicate 400 100 ++ List.replicate 300 0) : Seg).drop 300).take 600
        ≠ ((List.replicate 300 0
          ++ (List.replicate 400 100 ++ List.replicate 300 0) : Seg).drop 300).take 510 := by
  decide

/-- C8, amended: for every 1000ms waveform whose slices 0-29 are at or
below the silence threshold, slices 30-69 above both thresholds and
slices 70-99 at or below the silence threshold, START returns the
sub-range from 300ms to the end, and END applied to that result keeps
its first `min(390 + 10 + 200, 700) = 600` ms — the reversed scan
confirms the run opened at the last noisy slice (offset 390 of the
700ms result), not at its earliest noisy sample. -/
theorem c8_amended_scenario (σ β : ℚ) (seg : Seg) (hlen : seg.length = 1000)
    (h1 : ∀ i, i < 30 → ¬ (sliceRms seg i : ℚ) > σ)
    (h2 : ∀ i, i < 70 → 30 ≤ i →
      (sliceRms seg i : ℚ) > σ ∧ (sliceRms seg i : ℚ) > β)
    (h3 : ∀ i, i < 100 → 70 ≤ i → ¬ (sliceRms seg i : ℚ) > σ) :
    trim_silence σ β seg .START = .ok (seg.drop 300)
      ∧ trim_silence σ β (seg.drop 300) .END
        = .ok ((seg.drop 300).take 600) := by
  have hn : seg.length / 10 = 100 := by rw [hlen]
  have hsplit : List.range 100 = List.range' 0 30 ++ List.range' 30 70 := by
    rw [List.range_eq_range']
    have h0 := List.range'_append 0 30 70 1
    simp only [Nat.zero_add, Nat.one_mul] at h0
    rw [show (70 : ℕ) + 30 = 100 from rfl] at h0
    exact h0.symm
  have hgap1 : decideLoop σ β seg (trimIdxs seg .START) none none
      = .gap 300 := by
    simp only [trimIdxs]
    rw [hn, hsplit]
    rw [decideLoop_quiet_append σ β seg _ _ none
      (by
        intro k hk
        rw [List.mem_range'_1] at hk
        exact h1 k (by omega))]
    exact decideLoop_asc_confirm σ β seg 30 70 none (by omega)
      (fun k hk1 hk2 => (h2 k (by omega) hk1).1)
  have hstart : trim_silence σ β seg .START = .ok (seg.drop 300) := by
    rw [trim_silence_of_gap σ β seg .START 300 (by omega) hgap1]
    rw [show gapOut seg .START 300 = pySlice seg 300 seg.length from rfl,
      pySlice_drop_all]
  have hout_len : (seg.drop 300).length = 700 := by
    rw [List.length_drop, hlen]
  have hsh : ∀ k, sliceRms (seg.drop 300) k = sliceRms seg (30 + k) := by
    intro k
    have h0 := sliceRms_drop seg 30 k
    rwa [show (30 : ℕ) * 10 = 300 from rfl] at h0
  have hn2 : (seg.drop 300).length / 10 = 70 := by rw [hout_len]
  have hgap2 : decideLoop σ β (seg.drop 300)
      (trimIdxs (seg.drop 300) .END) none none = .gap 390 := by
    simp only [trimIdxs]
    rw [hn2]
    exact decideLoop_desc_confirm σ β (seg.drop 300) 39 70 none (by omega)
      (by omega)
      (fun k hk1 hk2 => by
        rw [hsh k]
        exact h3 (30 + k) (by omega) (by omega))
      (fun k hk1 hk2 => by
        rw [hsh k]
        exact (h2 (30 + k) (by omega) (by omega)).1)
  have hend : trim_silence σ β (seg.drop 300) .END
      = .ok ((seg.drop 300).take 600) := by
    rw [trim_silence_of_gap σ β (seg.drop 300) .END 390 (by omega) hgap2]
    rw [show gapOut (seg.drop 300) .END 390
        = (seg.drop 300).take
            (if 390 + 10 + 200 > (seg.drop 300).length
              then (seg.drop 300).length else 390 + 10 + 200) from rfl]
    rw [hout_len, if_neg (by omega)]
  exact ⟨hstart, hend⟩

/-- Witness for C8 on the concrete scenario waveform. -/
theorem c8_witness :
    trim_silence 3 30 (List.replicate 300 0
        ++ (List.replicate 400 100 ++ List.replicate 300 0) : Seg) .START
      = .ok ((List.replicate 300 0
        ++ (List.replicate 400 100 ++ List.replicate 300 0) : Seg).drop 300)
    ∧ trim_silence 3 30 ((List.replicate 300 0
        ++ (List.replicate 400 100 ++ List.replicate 300 0) : Seg).drop 300) .END
      = .ok (((List.replicate 300 0
        ++ (List.replicate 400 100 ++ List.replicate 300 0) : Seg).drop 300).take 600) :=
  c8_amended_scenario 3 30
    (List.replicate 300 0 ++ (List.replicate 400 100 ++ List.replicate 300 0))
    (by decide) (by decide) (by decide) (by decide)
